import Mathlib

/-!
Verification of the GPS-boundary-to-occupancy-map pipeline (`gpsToNav2map.py`).

The script reads GPS waypoints, projects them to UTM (external library), orders
them into a polygon ring by angle around the centroid, rasterizes the polygon
into a grayscale occupancy grid, and writes the raster plus a `map.yaml`
metadata record.

Shallow embedding conventions:
* Python floats are modelled by exact rationals `ℚ`.
* Python `int()` (truncation toward zero) is `pyInt`.
* `sorted(utm_points, key=angle_from_centroid)` is `List.mergeSort` with the
  decidable comparator `angleKeyLe`, which decides the ordering of the exact
  mathematical `atan2` values; the bridge theorem `atan2LtB_iff` proves the
  comparator agrees with comparison of `Complex.arg`.
* `PIL.ImageDraw.polygon` is external library code; its fill is modelled from
  the spec: even-odd crossing semantics with boundary cells included
  (`pointInPoly`).
-/

/- The Batteries library marks the rational arithmetic operations
`@[irreducible]`; restore default reducibility so that concrete rational
computations can be settled by `decide`. -/
unseal Rat.add Rat.sub Rat.mul Rat.inv

namespace GpsMap

/-- Python `int()` applied to a float: truncation toward zero. -/
def pyInt (q : ℚ) : ℤ := if q < 0 then -⌊-q⌋ else ⌊q⌋

/-- `min_x = min([p[0] for p in utm_points])` (defined for nonempty input;
junk value `0` on the empty list, where Python raises). -/
def min_x : List (ℚ × ℚ) → ℚ
  | [] => 0
  | p :: ps => (ps.map Prod.fst).foldl min p.1

/-- `min_y = min([p[1] for p in utm_points])`. -/
def min_y : List (ℚ × ℚ) → ℚ
  | [] => 0
  | p :: ps => (ps.map Prod.snd).foldl min p.2

/-- `max_x = max([p[0] for p in utm_points])`. -/
def max_x : List (ℚ × ℚ) → ℚ
  | [] => 0
  | p :: ps => (ps.map Prod.fst).foldl max p.1

/-- `max_y = max([p[1] for p in utm_points])`. -/
def max_y : List (ℚ × ℚ) → ℚ
  | [] => 0
  | p :: ps => (ps.map Prod.snd).foldl max p.2

/-- `resolution = 0.50` (source literal, meters per pixel). -/
def resolution : ℚ := 1 / 2

/-- `padding = 10` (source literal, cells). -/
def padding : ℤ := 10

/-- `centroid_x = sum([p[0] for p in utm_points]) / len(utm_points)`. -/
def centroid_x (pts : List (ℚ × ℚ)) : ℚ :=
  (pts.map Prod.fst).sum / (pts.length : ℚ)

/-- `centroid_y = sum([p[1] for p in utm_points]) / len(utm_points)`. -/
def centroid_y (pts : List (ℚ × ℚ)) : ℚ :=
  (pts.map Prod.snd).sum / (pts.length : ℚ)

/-- The centroid as a pair. -/
def centroid (pts : List (ℚ × ℚ)) : ℚ × ℚ := (centroid_x pts, centroid_y pts)

/-- Classifies the direction `(x, y)` by the range its `atan2 y x` value lies
in: class 0 is `(-π, 0)` (lower half-plane), class 1 is `{0}` (nonnegative
x-axis, including the origin since `atan2 0 0 = 0`), class 2 is `(0, π)`
(upper half-plane), class 3 is `{π}` (negative x-axis). -/
def atan2Class (x y : ℚ) : ℕ :=
  if y < 0 then 0
  else if y = 0 ∧ 0 ≤ x then 1
  else if 0 < y then 2
  else 3

/-- 2D cross product of `(x1, y1)` and `(x2, y2)`. -/
def cross (x1 y1 x2 y2 : ℚ) : ℚ := x1 * y2 - y1 * x2

/-- Decides `atan2 y1 x1 < atan2 y2 x2` exactly: compare the range classes,
and within an open half-plane (a range of width `< π`) compare by the sign of
the cross product. -/
def atan2LtB (x1 y1 x2 y2 : ℚ) : Bool :=
  if atan2Class x1 y1 = atan2Class x2 y2 then
    decide ((atan2Class x1 y1 = 0 ∨ atan2Class x1 y1 = 2) ∧ 0 < cross x1 y1 x2 y2)
  else
    decide (atan2Class x1 y1 < atan2Class x2 y2)

/-- The comparator induced by the Python sort key
`angle_from_centroid(point) = atan2(point[1] - centroid_y, point[0] - centroid_x)`:
`p` precedes `q` when the key of `q` is not smaller than the key of `p`. -/
def angleKeyLe (c p q : ℚ × ℚ) : Bool :=
  !(atan2LtB (q.1 - c.1) (q.2 - c.2) (p.1 - c.1) (p.2 - c.2))

/-- `utm_points_sorted = sorted(utm_points, key=angle_from_centroid)`:
a stable sort, ascending in the key. -/
def utm_points_sorted (pts : List (ℚ × ℚ)) : List (ℚ × ℚ) :=
  pts.mergeSort (fun p q => angleKeyLe (centroid pts) p q)

/-- `width = int((max_x - min_x) / resolution) + 2 * padding`, with the
resolution and padding abstracted as parameters. -/
def width (pts : List (ℚ × ℚ)) (res : ℚ) (pad : ℤ) : ℤ :=
  pyInt ((max_x pts - min_x pts) / res) + 2 * pad

/-- `height = int((max_y - min_y) / resolution) + 2 * padding`. -/
def height (pts : List (ℚ × ℚ)) (res : ℚ) (pad : ℤ) : ℤ :=
  pyInt ((max_y pts - min_y pts) / res) + 2 * pad

/-- One element of the `polygon_points` comprehension:
`(int((x - min_x) / resolution) + padding, int((y - min_y) / resolution) + padding)`. -/
def toPixel (mnx mny res : ℚ) (pad : ℤ) (p : ℚ × ℚ) : ℤ × ℤ :=
  (pyInt ((p.1 - mnx) / res) + pad, pyInt ((p.2 - mny) / res) + pad)

/-- `polygon_points`: the sorted ring mapped to pixel coordinates. -/
def polygon_points (pts : List (ℚ × ℚ)) (res : ℚ) (pad : ℤ) : List (ℤ × ℤ) :=
  (utm_points_sorted pts).map (toPixel (min_x pts) (min_y pts) res pad)

/-- Is `p` on the closed segment from `a` to `b` (integer coordinates)? -/
def onSegment (a b p : ℤ × ℤ) : Bool :=
  decide ((b.1 - a.1) * (p.2 - a.2) = (b.2 - a.2) * (p.1 - a.1)) &&
  decide (min a.1 b.1 ≤ p.1) && decide (p.1 ≤ max a.1 b.1) &&
  decide (min a.2 b.2 ≤ p.2) && decide (p.2 ≤ max a.2 b.2)

/-- Does the edge from `a` to `b` cross the horizontal ray from `p` in the
`+x` direction (even-odd crossing rule)? -/
def edgeCrosses (p a b : ℤ × ℤ) : Bool :=
  (decide (p.2 < a.2) != decide (p.2 < b.2)) &&
  (if 0 < b.2 - a.2 then
    decide ((p.1 - a.1) * (b.2 - a.2) < (p.2 - a.2) * (b.1 - a.1))
  else
    decide ((p.2 - a.2) * (b.1 - a.1) < (p.1 - a.1) * (b.2 - a.2)))

/-- The closed edge list of a polygon: consecutive vertices plus the closing
edge from the last vertex back to the first. -/
def polyEdges (poly : List (ℤ × ℤ)) : List ((ℤ × ℤ) × (ℤ × ℤ)) :=
  poly.zip (poly.drop 1 ++ poly.take 1)

/-- Modelled from the spec: the fill semantics of the external
`PIL.ImageDraw.polygon` call, "even-odd/scanline semantics, boundary cells
included" — a cell is filled iff its ray-crossing count is odd or it lies on a
polygon edge. -/
def pointInPoly (poly : List (ℤ × ℤ)) (p : ℤ × ℤ) : Bool :=
  decide ((polyEdges poly).countP (fun e => edgeCrosses p e.1 e.2) % 2 = 1) ||
  (polyEdges poly).any (fun e => onSegment e.1 e.2 p)

/-- The value of the pixel at column `c`, row `r`: the image starts as black
background `0` (`Image.new('L', (width, height), 0)`) and
`draw.polygon(polygon_points, fill=205)` sets covered cells to `205`. -/
def pixel (pts : List (ℚ × ℚ)) (res : ℚ) (pad : ℤ) (c r : ℤ) : ℕ :=
  if pointInPoly (polygon_points pts res pad) (c, r) then 205 else 0

/-- The full raster image, as rows of pixel values, `height` rows of `width`
cells each. -/
def image (pts : List (ℚ × ℚ)) (res : ℚ) (pad : ℤ) : List (List ℕ) :=
  (List.range (height pts res pad).toNat).map fun (r : ℕ) =>
    (List.range (width pts res pad).toNat).map fun (c : ℕ) =>
      pixel pts res pad (Int.ofNat c) (Int.ofNat r)

/-- The two-argument arctangent `atan2 y x`, defined as the argument of the
complex number `x + y·i`: range `(-π, π]`, `atan2 0 0 = 0`, zero on the
positive x-axis, `π` on the negative x-axis — the semantics of Python's
`math.atan2`. -/
noncomputable def atan2 (y x : ℝ) : ℝ := Complex.arg ⟨x, y⟩

/-- The Python sort key
`angle_from_centroid(point) = math.atan2(point[1] - centroid_y, point[0] - centroid_x)`,
with exact real semantics. -/
noncomputable def angle_from_centroid (c p : ℚ × ℚ) : ℝ :=
  atan2 ((p.2 : ℝ) - (c.2 : ℝ)) ((p.1 : ℝ) - (c.1 : ℝ))

/-- A value in the `map.yaml` record: a string, a number, or the origin
triple. -/
inductive YamlVal where
  | str : String → YamlVal
  | num : ℚ → YamlVal
  | triple : ℚ → ℚ → ℚ → YamlVal
deriving DecidableEq

/-- The `map.yaml` record written by the script, as an ordered key-value
list:
`image`, `resolution`, `origin = [min_x - padding*resolution,
min_y - padding*resolution, 0.0]`, `occupied_thresh: 0.65`,
`free_thresh: 0.196`, `negate: 0`. -/
def map_yaml (pts : List (ℚ × ℚ)) (res : ℚ) (pad : ℤ) : List (String × YamlVal) :=
  [("image", YamlVal.str "map_fixed.pgm"),
   ("resolution", YamlVal.num res),
   ("origin", YamlVal.triple (min_x pts - (pad : ℚ) * res) (min_y pts - (pad : ℚ) * res) 0),
   ("occupied_thresh", YamlVal.num (65 / 100)),
   ("free_thresh", YamlVal.num (196 / 1000)),
   ("negate", YamlVal.num 0)]

/-- A valid (non-degenerate) input on which the width formula is probed:
x-extent `21/10`, y-extent `1`. -/
def ptsC1 : List (ℚ × ℚ) := [(0, 0), (21/10, 1)]

/-- The boundary points of the 10 m × 10 m square scenario. -/
def ptsC6 : List (ℚ × ℚ) := [(0, 0), (0, 10), (10, 10), (10, 0)]

/-- The pixel-coordinate ring produced for `ptsC6`. -/
def ringC6 : List (ℤ × ℤ) := [(10, 10), (30, 10), (30, 30), (10, 30)]

/-- An input whose bounding box has zero width (all x equal). -/
def ptsC7 : List (ℚ × ℚ) := [(0, 0), (0, 1), (0, 2)]

/-- An input with only two distinct points. -/
def ptsC8 : List (ℚ × ℚ) := [(0, 0), (1, 1)]

/-- Witness input for the width/height formula. -/
def ptsW1 : List (ℚ × ℚ) := [(0, 0), (3, 2)]

/-- Witness input for the sort: centroid `(0, 0)`, with `(1,0)` and `(2,0)`
sharing the angle `0`. -/
def ptsW2 : List (ℚ × ℚ) := [(1, 0), (2, 0), (-1, 0), (-2, 0), (0, 1), (0, -1)]

/-- Witness input for the grid-coordinate formula. -/
def ptsW3 : List (ℚ × ℚ) := [(0, 0), (2, 3)]

/-- Witness input with a zero-width bounding box. -/
def ptsW7 : List (ℚ × ℚ) := [(5, 1), (5, 2)]

/-- Witness input with two distinct points. -/
def ptsW8 : List (ℚ × ℚ) := [(0, 0), (2, 1)]

/-- Witness input for vertex bounds. -/
def ptsW9 : List (ℚ × ℚ) := [(0, 0), (1, 1)]

/-! ## Helper lemmas -/

theorem foldl_min_le_init : ∀ (l : List ℚ) (a : ℚ), l.foldl min a ≤ a := by
  intro l
  induction l with
  | nil => intro a; exact le_refl a
  | cons x l ih => intro a; exact le_trans (ih (min a x)) (min_le_left a x)

theorem foldl_min_le_mem : ∀ (l : List ℚ) (a x : ℚ), x ∈ l → l.foldl min a ≤ x := by
  intro l
  induction l with
  | nil => intro a x hx; cases hx
  | cons y l ih =>
    intro a x hx
    rcases List.mem_cons.mp hx with h | h
    · subst h; exact le_trans (foldl_min_le_init l (min a x)) (min_le_right a x)
    · exact ih (min a y) x h

theorem foldl_min_mem : ∀ (l : List ℚ) (a : ℚ), l.foldl min a = a ∨ l.foldl min a ∈ l := by
  intro l
  induction l with
  | nil => intro a; exact Or.inl rfl
  | cons x l ih =>
    intro a
    rcases ih (min a x) with h | h
    · rcases min_choice a x with hm | hm
      · exact Or.inl (by rw [List.foldl_cons, h, hm])
      · exact Or.inr (by rw [List.foldl_cons, h, hm]; exact List.mem_cons_self x l)
    · exact Or.inr (List.mem_cons_of_mem x h)

theorem init_le_foldl_max : ∀ (l : List ℚ) (a : ℚ), a ≤ l.foldl max a := by
  intro l
  induction l with
  | nil => intro a; exact le_refl a
  | cons x l ih => intro a; exact le_trans (le_max_left a x) (ih (max a x))

theorem mem_le_foldl_max : ∀ (l : List ℚ) (a x : ℚ), x ∈ l → x ≤ l.foldl max a := by
  intro l
  induction l with
  | nil => intro a x hx; cases hx
  | cons y l ih =>
    intro a x hx
    rcases List.mem_cons.mp hx with h | h
    · subst h; exact le_trans (le_max_right a x) (init_le_foldl_max l (max a x))
    · exact ih (max a y) x h

theorem foldl_max_mem : ∀ (l : List ℚ) (a : ℚ), l.foldl max a = a ∨ l.foldl max a ∈ l := by
  intro l
  induction l with
  | nil => intro a; exact Or.inl rfl
  | cons x l ih =>
    intro a
    rcases ih (max a x) with h | h
    · rcases max_choice a x with hm | hm
      · exact Or.inl (by rw [List.foldl_cons, h, hm])
      · exact Or.inr (by rw [List.foldl_cons, h, hm]; exact List.mem_cons_self x l)
    · exact Or.inr (List.mem_cons_of_mem x h)

theorem min_x_le {pts : List (ℚ × ℚ)} {p : ℚ × ℚ} (hp : p ∈ pts) : min_x pts ≤ p.1 := by
  cases pts with
  | nil => cases hp
  | cons q ps =>
    rcases List.mem_cons.mp hp with h | h
    · subst h; exact foldl_min_le_init _ _
    · exact foldl_min_le_mem _ _ _ (List.mem_map_of_mem Prod.fst h)

theorem min_y_le {pts : List (ℚ × ℚ)} {p : ℚ × ℚ} (hp : p ∈ pts) : min_y pts ≤ p.2 := by
  cases pts with
  | nil => cases hp
  | cons q ps =>
    rcases List.mem_cons.mp hp with h | h
    · subst h; exact foldl_min_le_init _ _
    · exact foldl_min_le_mem _ _ _ (List.mem_map_of_mem Prod.snd h)

theorem le_max_x {pts : List (ℚ × ℚ)} {p : ℚ × ℚ} (hp : p ∈ pts) : p.1 ≤ max_x pts := by
  cases pts with
  | nil => cases hp
  | cons q ps =>
    rcases List.mem_cons.mp hp with h | h
    · subst h; exact init_le_foldl_max _ _
    · exact mem_le_foldl_max _ _ _ (List.mem_map_of_mem Prod.fst h)

theorem le_max_y {pts : List (ℚ × ℚ)} {p : ℚ × ℚ} (hp : p ∈ pts) : p.2 ≤ max_y pts := by
  cases pts with
  | nil => cases hp
  | cons q ps =>
    rcases List.mem_cons.mp hp with h | h
    · subst h; exact init_le_foldl_max _ _
    · exact mem_le_foldl_max _ _ _ (List.mem_map_of_mem Prod.snd h)

theorem min_x_le_max_x {pts : List (ℚ × ℚ)} (h : pts ≠ []) : min_x pts ≤ max_x pts := by
  cases pts with
  | nil => exact absurd rfl h
  | cons q ps =>
    exact le_trans (min_x_le (List.mem_cons_self q ps)) (le_max_x (List.mem_cons_self q ps))

theorem min_y_le_max_y {pts : List (ℚ × ℚ)} (h : pts ≠ []) : min_y pts ≤ max_y pts := by
  cases pts with
  | nil => exact absurd rfl h
  | cons q ps =>
    exact le_trans (min_y_le (List.mem_cons_self q ps)) (le_max_y (List.mem_cons_self q ps))

theorem pyInt_of_nonneg {q : ℚ} (h : 0 ≤ q) : pyInt q = ⌊q⌋ := by
  rw [pyInt, if_neg (not_lt.mpr h)]

theorem pyInt_nonneg {q : ℚ} (h : 0 ≤ q) : 0 ≤ pyInt q := by
  rw [pyInt_of_nonneg h]
  exact Int.floor_nonneg.mpr h

theorem pyInt_mono {a b : ℚ} (ha : 0 ≤ a) (hab : a ≤ b) : pyInt a ≤ pyInt b := by
  rw [pyInt_of_nonneg ha, pyInt_of_nonneg (le_trans ha hab)]
  exact Int.floor_le_floor hab

theorem min_x_eq_of_const {pts : List (ℚ × ℚ)} {x0 : ℚ} (hne : pts ≠ [])
    (h : ∀ p ∈ pts, p.1 = x0) : min_x pts = x0 := by
  cases pts with
  | nil => exact absurd rfl hne
  | cons q ps =>
    show (ps.map Prod.fst).foldl min q.1 = x0
    rcases foldl_min_mem (ps.map Prod.fst) q.1 with hm | hm
    · rw [hm]; exact h q (List.mem_cons_self q ps)
    · rcases List.mem_map.mp hm with ⟨p, hp, hpx⟩
      rw [← hpx]; exact h p (List.mem_cons_of_mem q hp)

theorem max_x_eq_of_const {pts : List (ℚ × ℚ)} {x0 : ℚ} (hne : pts ≠ [])
    (h : ∀ p ∈ pts, p.1 = x0) : max_x pts = x0 := by
  cases pts with
  | nil => exact absurd rfl hne
  | cons q ps =>
    show (ps.map Prod.fst).foldl max q.1 = x0
    rcases foldl_max_mem (ps.map Prod.fst) q.1 with hm | hm
    · rw [hm]; exact h q (List.mem_cons_self q ps)
    · rcases List.mem_map.mp hm with ⟨p, hp, hpx⟩
      rw [← hpx]; exact h p (List.mem_cons_of_mem q hp)

/-! ## The comparator decides the `atan2` order

`atan2LtB` is the executable comparison the embedded sort uses; the
following lemmas prove it agrees with comparison of the mathematical
`atan2` (that is, of `Complex.arg`). -/

theorem atan2_eq_arctan {y x : ℝ} (hx : 0 < x) : atan2 y x = Real.arctan (y / x) := by
  have hre : ((⟨x, y⟩ : ℂ)).re = x := rfl
  have him : ((⟨x, y⟩ : ℂ)).im = y := rfl
  have habs : |Complex.arg ⟨x, y⟩| < Real.pi / 2 :=
    Complex.abs_arg_lt_pi_div_two_iff.mpr (Or.inl (by rw [hre]; exact hx))
  rw [abs_lt] at habs
  have ht : Real.tan (Complex.arg ⟨x, y⟩) = y / x := by
    rw [Complex.tan_arg, hre, him]
  rw [atan2, ← ht, Real.arctan_tan (by linarith [habs.1]) habs.2]

theorem sin_pos_iff_of_mem {d : ℝ} (h1 : -Real.pi < d) (h2 : d < Real.pi) :
    0 < Real.sin d ↔ 0 < d := by
  constructor
  · intro hs
    by_contra hd
    push_neg at hd
    have hnn : 0 ≤ Real.sin (-d) :=
      Real.sin_nonneg_of_nonneg_of_le_pi (by linarith) (by linarith)
    rw [Real.sin_neg] at hnn
    linarith
  · intro hd
    exact Real.sin_pos_of_pos_of_lt_pi hd h2

theorem arg_sub_sin (z w : ℂ) (hz : z ≠ 0) (hw : w ≠ 0) :
    Real.sin (w.arg - z.arg) =
      (z.re * w.im - z.im * w.re) / (Complex.abs z * Complex.abs w) := by
  have hz' : Complex.abs z ≠ 0 := Complex.abs.ne_zero hz
  have hw' : Complex.abs w ≠ 0 := Complex.abs.ne_zero hw
  rw [Real.sin_sub, Complex.sin_arg, Complex.sin_arg, Complex.cos_arg hz, Complex.cos_arg hw]
  field_simp
  ring

theorem arg_lt_arg_iff_cross (z w : ℂ) (hz : z ≠ 0) (hw : w ≠ 0)
    (h1 : -Real.pi < w.arg - z.arg) (h2 : w.arg - z.arg < Real.pi) :
    (z.arg < w.arg ↔ 0 < z.re * w.im - z.im * w.re) := by
  have habs : 0 < Complex.abs z * Complex.abs w :=
    mul_pos (Complex.abs.pos hz) (Complex.abs.pos hw)
  constructor
  · intro h
    have hs : 0 < Real.sin (w.arg - z.arg) := (sin_pos_iff_of_mem h1 h2).mpr (by linarith)
    rw [arg_sub_sin z w hz hw] at hs
    by_contra hc
    push_neg at hc
    have hnp : (z.re * w.im - z.im * w.re) / (Complex.abs z * Complex.abs w) ≤ 0 :=
      div_nonpos_iff.mpr (Or.inr ⟨hc, le_of_lt habs⟩)
    linarith
  · intro h
    have hs : 0 < Real.sin (w.arg - z.arg) := by
      rw [arg_sub_sin z w hz hw]
      exact div_pos h habs
    have hd := (sin_pos_iff_of_mem h1 h2).mp hs
    linarith

theorem mk_ne_zero_of_im {x y : ℚ} (hy : y ≠ 0) : (⟨(x : ℝ), (y : ℝ)⟩ : ℂ) ≠ 0 := by
  intro h
  have him : ((⟨(x : ℝ), (y : ℝ)⟩ : ℂ)).im = 0 := by rw [h]; rfl
  have hy0 : (y : ℝ) = 0 := him
  exact hy (by exact_mod_cast hy0)

theorem atan2Class_spec (x y : ℚ) :
    (atan2Class x y = 0 ∧ y < 0 ∧ -Real.pi < atan2 (y : ℝ) (x : ℝ) ∧ atan2 (y : ℝ) (x : ℝ) < 0) ∨
    (atan2Class x y = 1 ∧ atan2 (y : ℝ) (x : ℝ) = 0) ∨
    (atan2Class x y = 2 ∧ 0 < y ∧ 0 < atan2 (y : ℝ) (x : ℝ) ∧ atan2 (y : ℝ) (x : ℝ) < Real.pi) ∨
    (atan2Class x y = 3 ∧ atan2 (y : ℝ) (x : ℝ) = Real.pi) := by
  have hre : ((⟨(x : ℝ), (y : ℝ)⟩ : ℂ)).re = (x : ℝ) := rfl
  have him : ((⟨(x : ℝ), (y : ℝ)⟩ : ℂ)).im = (y : ℝ) := rfl
  rw [atan2Class, atan2]
  split_ifs with h1 h2 h3
  · left
    refine ⟨rfl, h1, Complex.neg_pi_lt_arg _, ?_⟩
    exact Complex.arg_neg_iff.mpr (by rw [him]; exact_mod_cast h1)
  · right; left
    exact ⟨rfl, Complex.arg_eq_zero_iff.mpr
      ⟨by rw [hre]; exact_mod_cast h2.2, by rw [him]; exact_mod_cast h2.1⟩⟩
  · right; right; left
    refine ⟨rfl, h3, ?_, ?_⟩
    · rcases lt_or_eq_of_le (Complex.arg_nonneg_iff.mpr
        (by rw [him]; exact_mod_cast le_of_lt h3)) with h | h
      · exact h
      · exfalso
        have him0 := (Complex.arg_eq_zero_iff.mp h.symm).2
        rw [him] at him0
        have hy0 : y = 0 := by exact_mod_cast him0
        exact absurd hy0 (ne_of_gt h3)
    · refine Complex.arg_lt_pi_iff.mpr (Or.inr ?_)
      rw [him]
      exact_mod_cast (ne_of_gt h3)
  · right; right; right
    have hy : y = 0 := le_antisymm (not_lt.mp h3) (not_lt.mp h1)
    have hx : x < 0 := by
      by_contra hx
      exact h2 ⟨hy, not_lt.mp hx⟩
    exact ⟨rfl, Complex.arg_eq_pi_iff.mpr
      ⟨by rw [hre]; exact_mod_cast hx, by rw [him]; exact_mod_cast hy⟩⟩

theorem arg_lt_iff_cross_aux {x1 y1 x2 y2 : ℚ} (hy1 : y1 ≠ 0) (hy2 : y2 ≠ 0)
    (h1 : -Real.pi < atan2 (y2 : ℝ) (x2 : ℝ) - atan2 (y1 : ℝ) (x1 : ℝ))
    (h2 : atan2 (y2 : ℝ) (x2 : ℝ) - atan2 (y1 : ℝ) (x1 : ℝ) < Real.pi) :
    (atan2 (y1 : ℝ) (x1 : ℝ) < atan2 (y2 : ℝ) (x2 : ℝ) ↔ 0 < cross x1 y1 x2 y2) := by
  have h := arg_lt_arg_iff_cross ⟨(x1 : ℝ), (y1 : ℝ)⟩ ⟨(x2 : ℝ), (y2 : ℝ)⟩
    (mk_ne_zero_of_im hy1) (mk_ne_zero_of_im hy2) h1 h2
  rw [show atan2 (y1 : ℝ) (x1 : ℝ) = Complex.arg ⟨(x1 : ℝ), (y1 : ℝ)⟩ from rfl,
      show atan2 (y2 : ℝ) (x2 : ℝ) = Complex.arg ⟨(x2 : ℝ), (y2 : ℝ)⟩ from rfl, h, cross]
  constructor
  · intro hlt
    have hlt' : (0 : ℝ) < (x1 : ℝ) * (y2 : ℝ) - (y1 : ℝ) * (x2 : ℝ) := hlt
    exact_mod_cast hlt'
  · intro hlt
    show (0 : ℝ) < (x1 : ℝ) * (y2 : ℝ) - (y1 : ℝ) * (x2 : ℝ)
    exact_mod_cast hlt

theorem atan2LtB_iff (x1 y1 x2 y2 : ℚ) :
    atan2LtB x1 y1 x2 y2 = true ↔ atan2 (y1 : ℝ) (x1 : ℝ) < atan2 (y2 : ℝ) (x2 : ℝ) := by
  have hpi := Real.pi_pos
  rcases atan2Class_spec x1 y1 with ⟨hc1, hy1, hlo1, hhi1⟩ | ⟨hc1, heq1⟩ |
    ⟨hc1, hy1, hlo1, hhi1⟩ | ⟨hc1, heq1⟩ <;>
  rcases atan2Class_spec x2 y2 with ⟨hc2, hy2, hlo2, hhi2⟩ | ⟨hc2, heq2⟩ |
    ⟨hc2, hy2, hlo2, hhi2⟩ | ⟨hc2, heq2⟩ <;>
  rw [atan2LtB, hc1, hc2] <;> norm_num
  · exact (arg_lt_iff_cross_aux (ne_of_lt hy1) (ne_of_lt hy2)
      (by linarith) (by linarith)).symm
  · linarith
  · linarith
  · linarith
  · linarith
  · linarith
  · linarith
  · linarith
  · linarith
  · linarith
  · exact (arg_lt_iff_cross_aux (ne_of_gt hy1) (ne_of_gt hy2)
      (by linarith) (by linarith)).symm
  · linarith
  · linarith
  · linarith
  · linarith
  · linarith

theorem angleKeyLe_iff (c p q : ℚ × ℚ) :
    angleKeyLe c p q = true ↔
      angle_from_centroid c p ≤ angle_from_centroid c q := by
  have h := atan2LtB_iff (q.1 - c.1) (q.2 - c.2) (p.1 - c.1) (p.2 - c.2)
  push_cast at h
  rw [angleKeyLe, Bool.not_eq_true', Bool.eq_false_iff, ne_eq, h,
    angle_from_centroid, angle_from_centroid]
  exact not_lt

theorem angleKeyLe_trans (c a b d : ℚ × ℚ) (h1 : angleKeyLe c a b = true)
    (h2 : angleKeyLe c b d = true) : angleKeyLe c a d = true :=
  (angleKeyLe_iff c a d).mpr
    (le_trans ((angleKeyLe_iff c a b).mp h1) ((angleKeyLe_iff c b d).mp h2))

theorem angleKeyLe_total (c a b : ℚ × ℚ) :
    (angleKeyLe c a b || angleKeyLe c b a) = true := by
  simp only [Bool.or_eq_true, angleKeyLe_iff]
  exact le_total _ _

/-! ## Concrete evaluation of the sort

`List.mergeSort` and `List.merge` are defined by well-founded recursion, so
concrete instances are evaluated through their equation lemmas. -/

theorem mergeSort_pair {α : Type} (le : α → α → Bool) (a b : α) :
    [a, b].mergeSort le = [a].merge [b] le := by
  rw [List.mergeSort]
  norm_num [List.splitInTwo, List.splitAt, List.splitAt.go]

theorem mergeSort_four {α : Type} (le : α → α → Bool) (a b c d : α) :
    [a, b, c, d].mergeSort le = ([a].merge [b] le).merge ([c].merge [d] le) le := by
  rw [List.mergeSort]
  norm_num [List.splitInTwo, List.splitAt, List.splitAt.go]
  rw [List.mergeSort]
  norm_num [List.splitInTwo, List.splitAt, List.splitAt.go]
  rw [List.mergeSort]
  norm_num [List.splitInTwo, List.splitAt, List.splitAt.go]

theorem merge_single {α : Type} (le : α → α → Bool) (a b : α) :
    [a].merge [b] le = if le a b then [a, b] else [b, a] := by
  rw [List.cons_merge_cons]
  split <;> simp [List.merge]

theorem sort_ptsC6 : utm_points_sorted ptsC6 = [(0, 0), (10, 0), (10, 10), (0, 10)] := by
  show ptsC6.mergeSort (fun p q => angleKeyLe (centroid ptsC6) p q) = _
  rw [show ptsC6 = [((0:ℚ), (0:ℚ)), (0, 10), (10, 10), (10, 0)] from rfl, mergeSort_four]
  have h1 : angleKeyLe (centroid ptsC6) (0, 0) (0, 10) = true := by decide
  have h2 : angleKeyLe (centroid ptsC6) (10, 10) (10, 0) = false := by decide
  have h3 : angleKeyLe (centroid ptsC6) (0, 0) (10, 0) = true := by decide
  have h4 : angleKeyLe (centroid ptsC6) (0, 10) (10, 0) = false := by decide
  have h5 : angleKeyLe (centroid ptsC6) (0, 10) (10, 10) = false := by decide
  simp [List.cons_merge_cons, List.nil_merge, ptsC6] at h1 h2 h3 h4 h5 ⊢
  simp [h1, h2, h3, h4, h5, List.merge]

theorem poly_ptsC6 : polygon_points ptsC6 resolution padding = ringC6 := by
  rw [polygon_points, sort_ptsC6]
  decide

theorem sort_ptsW9 : utm_points_sorted ptsW9 = [(0, 0), (1, 1)] := by
  show ptsW9.mergeSort (fun p q => angleKeyLe (centroid ptsW9) p q) = _
  rw [show ptsW9 = [((0:ℚ), (0:ℚ)), (1, 1)] from rfl, mergeSort_pair, merge_single]
  have h : angleKeyLe (centroid ptsW9) (0, 0) (1, 1) = true := by decide
  simp [ptsW9] at h
  simp [h]

theorem poly_ptsW9 : polygon_points ptsW9 1 1 = [(1, 1), (2, 2)] := by
  rw [polygon_points, sort_ptsW9]
  decide

/-! ## Claim theorems -/

/-- C1, counterexample: at the valid input `ptsC1` (x-extent `21/10`,
y-extent `1`, both positive, resolution `1/2 > 0`, padding `10`) the code
computes `width = 24`, while the claimed formula
`ceil((max_x − min_x)/resolution) + 2·padding` gives `25`: the code
truncates (`int()`), it does not take the ceiling. -/
theorem width_ceil_cex :
    min_x ptsC1 < max_x ptsC1 ∧ min_y ptsC1 < max_y ptsC1 ∧
    width ptsC1 (1/2) 10 = 24 ∧
    ⌈(max_x ptsC1 - min_x ptsC1) / (1/2 : ℚ)⌉ + 2 * 10 = 25 := by
  refine ⟨by decide, by decide, by decide, by decide⟩

/-- C1 (amended): for every nonempty input, resolution `> 0` and padding
`≥ 1`, the code computes `width = ⌊(max_x − min_x)/resolution⌋ + 2·padding`
(floor, i.e. Python `int()` truncation of a nonnegative value, not the
ceiling), symmetrically for height, and both are `≥ 1`. -/
theorem width_height_floor (pts : List (ℚ × ℚ)) (res : ℚ) (pad : ℤ)
    (hne : pts ≠ []) (hres : 0 < res) (hpad : 1 ≤ pad) :
    width pts res pad = ⌊(max_x pts - min_x pts) / res⌋ + 2 * pad ∧
    height pts res pad = ⌊(max_y pts - min_y pts) / res⌋ + 2 * pad ∧
    1 ≤ width pts res pad ∧ 1 ≤ height pts res pad := by
  have hx : (0 : ℚ) ≤ (max_x pts - min_x pts) / res :=
    div_nonneg (sub_nonneg.mpr (min_x_le_max_x hne)) (le_of_lt hres)
  have hy : (0 : ℚ) ≤ (max_y pts - min_y pts) / res :=
    div_nonneg (sub_nonneg.mpr (min_y_le_max_y hne)) (le_of_lt hres)
  refine ⟨?_, ?_, ?_, ?_⟩
  · rw [width, pyInt_of_nonneg hx]
  · rw [height, pyInt_of_nonneg hy]
  · have := pyInt_nonneg hx
    rw [width]; omega
  · have := pyInt_nonneg hy
    rw [height]; omega

/-- Witness for `width_height_floor` at the input `ptsW1`, resolution `1`,
padding `1`. -/
theorem width_height_floor_witness :
    (ptsW1 ≠ []) ∧ ((0 : ℚ) < 1) ∧ ((1 : ℤ) ≤ 1) ∧
    (width ptsW1 1 1 = ⌊(max_x ptsW1 - min_x ptsW1) / (1 : ℚ)⌋ + 2 * 1 ∧
     height ptsW1 1 1 = ⌊(max_y ptsW1 - min_y ptsW1) / (1 : ℚ)⌋ + 2 * 1 ∧
     1 ≤ width ptsW1 1 1 ∧ 1 ≤ height ptsW1 1 1) :=
  ⟨by decide, by decide, by decide,
   width_height_floor ptsW1 1 1 (by decide) (by decide) (by decide)⟩

/-- C3: `polygon_points` maps each ring point through `toPixel`, and for
resolution `> 0` each ring point gets
`col = ⌊(x − min_x)/resolution⌋ + padding`,
`row = ⌊(y − min_y)/resolution⌋ + padding`; the row index is monotone in `y`
(no vertical flip), and with padding `0` a point at `y = min_y` lands in
row `0`. -/
theorem polygon_points_formula (pts : List (ℚ × ℚ)) (res : ℚ) (pad : ℤ)
    (hres : 0 < res) :
    polygon_points pts res pad =
      (utm_points_sorted pts).map (toPixel (min_x pts) (min_y pts) res pad) ∧
    (∀ p ∈ utm_points_sorted pts,
      toPixel (min_x pts) (min_y pts) res pad p =
        (⌊(p.1 - min_x pts) / res⌋ + pad, ⌊(p.2 - min_y pts) / res⌋ + pad)) ∧
    (∀ p ∈ utm_points_sorted pts, ∀ q ∈ utm_points_sorted pts, p.2 ≤ q.2 →
      (toPixel (min_x pts) (min_y pts) res pad p).2 ≤
        (toPixel (min_x pts) (min_y pts) res pad q).2) ∧
    (∀ p ∈ utm_points_sorted pts, p.2 = min_y pts →
      (toPixel (min_x pts) (min_y pts) res 0 p).2 = 0) := by
  refine ⟨rfl, ?_, ?_, ?_⟩
  · intro p hp
    have hp' : p ∈ pts := List.mem_mergeSort.mp hp
    have hx : (0 : ℚ) ≤ (p.1 - min_x pts) / res :=
      div_nonneg (sub_nonneg.mpr (min_x_le hp')) (le_of_lt hres)
    have hy : (0 : ℚ) ≤ (p.2 - min_y pts) / res :=
      div_nonneg (sub_nonneg.mpr (min_y_le hp')) (le_of_lt hres)
    rw [toPixel, pyInt_of_nonneg hx, pyInt_of_nonneg hy]
  · intro p hp q hq hpq
    have hp' : p ∈ pts := List.mem_mergeSort.mp hp
    have hy : (0 : ℚ) ≤ (p.2 - min_y pts) / res :=
      div_nonneg (sub_nonneg.mpr (min_y_le hp')) (le_of_lt hres)
    have hmono : (p.2 - min_y pts) / res ≤ (q.2 - min_y pts) / res :=
      (div_le_div_iff_of_pos_right hres).mpr (sub_le_sub_right hpq _)
    exact add_le_add_right (pyInt_mono hy hmono) pad
  · intro p hp hpy
    show pyInt ((p.2 - min_y pts) / res) + 0 = 0
    rw [hpy, sub_self, zero_div, add_zero]
    rw [pyInt_of_nonneg (le_refl (0 : ℚ)), Int.floor_zero]

/-- Witness for `polygon_points_formula` at `ptsW3`, resolution `1`,
padding `5`, ring point `(2, 3)`. -/
theorem polygon_points_formula_witness :
    ((0 : ℚ) < 1) ∧ ((2, 3) ∈ utm_points_sorted ptsW3) ∧
    toPixel (min_x ptsW3) (min_y ptsW3) 1 5 (2, 3) =
      (⌊((2 : ℚ) - min_x ptsW3) / (1 : ℚ)⌋ + 5, ⌊((3 : ℚ) - min_y ptsW3) / (1 : ℚ)⌋ + 5) :=
  ⟨by decide, List.mem_mergeSort.mpr (by decide),
   (polygon_points_formula ptsW3 1 5 (by decide)).2.1 (2, 3) (List.mem_mergeSort.mpr (by decide))⟩

/-- C4: the metadata record has exactly the keys `image`, `resolution`,
`origin`, `occupied_thresh`, `free_thresh`, `negate`, and the origin triple
satisfies `origin_x = min_x − padding·resolution`,
`origin_y = min_y − padding·resolution`, `yaw = 0`, within `1e-9` (the
equalities are exact). -/
theorem map_yaml_keys_origin (pts : List (ℚ × ℚ)) (res : ℚ) (pad : ℤ) :
    (map_yaml pts res pad).map Prod.fst =
      ["image", "resolution", "origin", "occupied_thresh", "free_thresh", "negate"] ∧
    ∃ ox oy yaw : ℚ,
      (map_yaml pts res pad).lookup "origin" = some (YamlVal.triple ox oy yaw) ∧
      |ox - (min_x pts - (pad : ℚ) * res)| ≤ 1 / 10 ^ 9 ∧
      |oy - (min_y pts - (pad : ℚ) * res)| ≤ 1 / 10 ^ 9 ∧
      yaw = 0 := by
  refine ⟨rfl, min_x pts - (pad : ℚ) * res, min_y pts - (pad : ℚ) * res, 0, rfl, ?_, ?_, rfl⟩
  · rw [sub_self, abs_zero]; positivity
  · rw [sub_self, abs_zero]; positivity

/-- C10: the metadata record always carries the fixed literals
`occupied_thresh: 0.65`, `free_thresh: 0.196` and `negate: 0`, whatever the
input points, resolution and padding. -/
theorem map_yaml_constants (pts : List (ℚ × ℚ)) (res : ℚ) (pad : ℤ) :
    (map_yaml pts res pad).lookup "occupied_thresh" = some (YamlVal.num (65 / 100)) ∧
    (map_yaml pts res pad).lookup "free_thresh" = some (YamlVal.num (196 / 1000)) ∧
    (map_yaml pts res pad).lookup "negate" = some (YamlVal.num 0) :=
  ⟨rfl, rfl, rfl⟩

/-- C5: for every input the raster is fully initialized: `height` rows
(`Int.toNat` of the computed height) of `width` cells each, and every cell
holds either `0` (exterior) or `205` (interior). -/
theorem image_fully_initialized (pts : List (ℚ × ℚ)) (res : ℚ) (pad : ℤ) :
    (image pts res pad).length = (height pts res pad).toNat ∧
    (∀ row ∈ image pts res pad, row.length = (width pts res pad).toNat) ∧
    (∀ row ∈ image pts res pad, ∀ v ∈ row, v = 0 ∨ v = 205) := by
  refine ⟨?_, ?_, ?_⟩
  · rw [image, List.length_map, List.length_range]
  · intro row hrow
    rw [image] at hrow
    rcases List.mem_map.mp hrow with ⟨r, _, hr⟩
    rw [← hr, List.length_map, List.length_range]
  · intro row hrow v hv
    rw [image] at hrow
    rcases List.mem_map.mp hrow with ⟨r, _, hr⟩
    rw [← hr] at hv
    rcases List.mem_map.mp hv with ⟨c, _, hc⟩
    rw [← hc, pixel]
    by_cases h : pointInPoly (polygon_points pts res pad) (Int.ofNat c, Int.ofNat r) = true
    · rw [if_pos h]; exact Or.inr rfl
    · rw [if_neg h]; exact Or.inl rfl

/-- C6, counterexample: in the square scenario (resolution `1/2`, padding
`10`) the grid is indeed 40×40, but the interior block does not start 10
cells from *each* border: the cell in column 30 of row 20 is interior
(value 205) although it lies only `40 − 1 − 30 = 9` cells from the right
border; a block starting 10 cells from each border would end at index
`40 − 1 − 10 = 29`. -/
theorem block_margin_cex :
    width ptsC6 resolution padding = 40 ∧ height ptsC6 resolution padding = 40 ∧
    pixel ptsC6 resolution padding 30 20 = 205 ∧ ¬((30 : ℤ) ≤ 40 - 1 - 10) := by
  refine ⟨by decide, by decide, ?_, by decide⟩
  rw [pixel, poly_ptsC6]
  decide

/-- C6 (amended): in the square scenario the grid is 40×40 and the interior
cells form exactly the contiguous block with row and column indices in
`[10, 30]` — 10 cells from the left and top borders but only 9 cells from
the right and bottom borders, since the boundary-inclusive fill covers
pixel columns/rows 10 through 30. -/
theorem block_margins (r c : ℕ) (hr : r < 40) (hc : c < 40) :
    width ptsC6 resolution padding = 40 ∧ height ptsC6 resolution padding = 40 ∧
    (pixel ptsC6 resolution padding (Int.ofNat c) (Int.ofNat r) = 205 ↔
      10 ≤ r ∧ r ≤ 30 ∧ 10 ≤ c ∧ c ≤ 30) := by
  refine ⟨by decide, by decide, ?_⟩
  rw [pixel, poly_ptsC6]
  revert hr hc
  have H : ∀ r' < 40, ∀ c' < 40,
      ((if pointInPoly ringC6 (Int.ofNat c', Int.ofNat r') = true then (205 : ℕ) else 0) = 205 ↔
        10 ≤ r' ∧ r' ≤ 30 ∧ 10 ≤ c' ∧ c' ≤ 30) := by decide
  intro hr hc
  exact H r hr c hc

/-- Witness for `block_margins` at cell `(15, 15)`. -/
theorem block_margins_witness :
    (15 < 40) ∧
    (width ptsC6 resolution padding = 40 ∧ height ptsC6 resolution padding = 40 ∧
      (pixel ptsC6 resolution padding (Int.ofNat 15) (Int.ofNat 15) = 205 ↔
        10 ≤ 15 ∧ 15 ≤ 30 ∧ 10 ≤ 15 ∧ 15 ≤ 30)) :=
  ⟨by decide, block_margins 15 15 (by decide) (by decide)⟩

/-- C7, counterexample: on an input whose bounding box has zero width the
pipeline does not fail — there is no `DegenerateExtent` check anywhere: it
builds a grid of width `2·padding = 20` and still produces the complete
metadata record. (Resolution cannot be `≤ 0` at all: it is the hard-coded
literal `1/2`.) -/
theorem degenerate_extent_cex :
    max_x ptsC7 = min_x ptsC7 ∧
    (0 : ℚ) < resolution ∧
    width ptsC7 resolution padding = 20 ∧
    (map_yaml ptsC7 resolution padding).map Prod.fst =
      ["image", "resolution", "origin", "occupied_thresh", "free_thresh", "negate"] := by
  refine ⟨by decide, by decide, by decide, rfl⟩

/-- C7 (amended): the code performs no degenerate-extent validation.
Resolution is the fixed literal `0.5 > 0`, and for every nonempty input
whose bounding box has zero width the grid width degenerates to
`2·padding` while both artifacts are still produced in full. -/
theorem degenerate_extent_no_failure (pts : List (ℚ × ℚ)) (x0 : ℚ) (res : ℚ) (pad : ℤ)
    (hne : pts ≠ []) (hx : ∀ p ∈ pts, p.1 = x0) (_hres : 0 < res) :
    width pts res pad = 2 * pad ∧
    (map_yaml pts res pad).map Prod.fst =
      ["image", "resolution", "origin", "occupied_thresh", "free_thresh", "negate"] := by
  constructor
  · rw [width, min_x_eq_of_const hne hx, max_x_eq_of_const hne hx, sub_self, zero_div]
    rw [pyInt_of_nonneg (le_refl (0 : ℚ)), Int.floor_zero, zero_add]
  · rfl

/-- Witness for `degenerate_extent_no_failure` at `ptsW7` (all x equal `5`),
resolution `1`, padding `3`. -/
theorem degenerate_extent_no_failure_witness :
    (ptsW7 ≠ []) ∧ ((0 : ℚ) < 1) ∧
    (width ptsW7 1 3 = 2 * 3 ∧
     (map_yaml ptsW7 1 3).map Prod.fst =
       ["image", "resolution", "origin", "occupied_thresh", "free_thresh", "negate"]) :=
  ⟨by decide, by decide,
   degenerate_extent_no_failure ptsW7 5 1 3 (by decide) (by decide) (by decide)⟩

/-- C8, counterexample: on an input with only two distinct boundary points
the pipeline does not fail — there is no `InsufficientPoints` check: both
the raster (a fully allocated 22×22 grid here) and the metadata record are
produced. -/
theorem insufficient_points_cex :
    ptsC8.length = 2 ∧
    width ptsC8 resolution padding = 22 ∧
    (image ptsC8 resolution padding).length = 22 ∧
    (map_yaml ptsC8 resolution padding).map Prod.fst =
      ["image", "resolution", "origin", "occupied_thresh", "free_thresh", "negate"] := by
  refine ⟨rfl, by decide, ?_, rfl⟩
  rw [image, List.length_map, List.length_range]
  decide

/-- C8 (amended): the code never counts distinct points: every nonempty
input — in particular one with fewer than 3 distinct points — still yields
the full metadata record and a raster with the computed number of rows. -/
theorem insufficient_points_no_failure (pts : List (ℚ × ℚ)) (res : ℚ) (pad : ℤ)
    (_hne : pts ≠ []) :
    (map_yaml pts res pad).map Prod.fst =
      ["image", "resolution", "origin", "occupied_thresh", "free_thresh", "negate"] ∧
    (image pts res pad).length = (height pts res pad).toNat := by
  refine ⟨rfl, ?_⟩
  rw [image, List.length_map, List.length_range]

/-- Witness for `insufficient_points_no_failure` at the two-point input
`ptsW8`. -/
theorem insufficient_points_no_failure_witness :
    (ptsW8 ≠ []) ∧
    ((map_yaml ptsW8 resolution padding).map Prod.fst =
      ["image", "resolution", "origin", "occupied_thresh", "free_thresh", "negate"] ∧
     (image ptsW8 resolution padding).length = (height ptsW8 resolution padding).toNat) :=
  ⟨by decide, insufficient_points_no_failure ptsW8 resolution padding (by decide)⟩

/-- C9: for resolution `> 0` and padding `≥ 1`, every vertex of
`polygon_points` satisfies `padding ≤ col ≤ width − padding` and
`padding ≤ row ≤ height − padding`, hence lies strictly inside the
allocated `width × height` grid. -/
theorem polygon_points_in_bounds (pts : List (ℚ × ℚ)) (res : ℚ) (pad : ℤ)
    (hres : 0 < res) (hpad : 1 ≤ pad) (pp : ℤ × ℤ)
    (hpp : pp ∈ polygon_points pts res pad) :
    (pad ≤ pp.1 ∧ pp.1 ≤ width pts res pad - pad ∧
     pad ≤ pp.2 ∧ pp.2 ≤ height pts res pad - pad) ∧
    (0 ≤ pp.1 ∧ pp.1 < width pts res pad ∧ 0 ≤ pp.2 ∧ pp.2 < height pts res pad) := by
  rcases List.mem_map.mp hpp with ⟨p, hpmem, hppx⟩
  have hp : p ∈ pts := List.mem_mergeSort.mp hpmem
  have hx0 : (0 : ℚ) ≤ (p.1 - min_x pts) / res :=
    div_nonneg (sub_nonneg.mpr (min_x_le hp)) (le_of_lt hres)
  have hy0 : (0 : ℚ) ≤ (p.2 - min_y pts) / res :=
    div_nonneg (sub_nonneg.mpr (min_y_le hp)) (le_of_lt hres)
  have hxm : (p.1 - min_x pts) / res ≤ (max_x pts - min_x pts) / res :=
    (div_le_div_iff_of_pos_right hres).mpr (sub_le_sub_right (le_max_x hp) _)
  have hym : (p.2 - min_y pts) / res ≤ (max_y pts - min_y pts) / res :=
    (div_le_div_iff_of_pos_right hres).mpr (sub_le_sub_right (le_max_y hp) _)
  have hcol : pp.1 = pyInt ((p.1 - min_x pts) / res) + pad := by rw [← hppx]; rfl
  have hrow : pp.2 = pyInt ((p.2 - min_y pts) / res) + pad := by rw [← hppx]; rfl
  have hc1 : 0 ≤ pyInt ((p.1 - min_x pts) / res) := pyInt_nonneg hx0
  have hr1 : 0 ≤ pyInt ((p.2 - min_y pts) / res) := pyInt_nonneg hy0
  have hc2 : pyInt ((p.1 - min_x pts) / res) ≤ pyInt ((max_x pts - min_x pts) / res) :=
    pyInt_mono hx0 hxm
  have hr2 : pyInt ((p.2 - min_y pts) / res) ≤ pyInt ((max_y pts - min_y pts) / res) :=
    pyInt_mono hy0 hym
  rw [hcol, hrow, width, height]
  omega

/-- Witness for `polygon_points_in_bounds` at `ptsW9`, resolution `1`,
padding `1`, vertex `(1, 1)`. -/
theorem polygon_points_in_bounds_witness :
    ((0 : ℚ) < 1) ∧ ((1 : ℤ) ≤ 1) ∧ ((1, 1) ∈ polygon_points ptsW9 1 1) ∧
    ((1 ≤ ((1, 1) : ℤ × ℤ).1 ∧ ((1, 1) : ℤ × ℤ).1 ≤ width ptsW9 1 1 - 1 ∧
      1 ≤ ((1, 1) : ℤ × ℤ).2 ∧ ((1, 1) : ℤ × ℤ).2 ≤ height ptsW9 1 1 - 1) ∧
     (0 ≤ ((1, 1) : ℤ × ℤ).1 ∧ ((1, 1) : ℤ × ℤ).1 < width ptsW9 1 1 ∧
      0 ≤ ((1, 1) : ℤ × ℤ).2 ∧ ((1, 1) : ℤ × ℤ).2 < height ptsW9 1 1)) :=
  ⟨by decide, by decide, by rw [poly_ptsW9]; decide,
   polygon_points_in_bounds ptsW9 1 1 (by decide) (by decide) (1, 1)
     (by rw [poly_ptsW9]; decide)⟩

/-- C2: the boundary orderer outputs a permutation of the input (same
cardinality, no deduplication, no hull reduction), sorted ascending by the
two-argument arctangent of each point's offset from the centroid (the
arithmetic mean of the points), and ties keep the original input order:
any input pair with equal angles remains in input order in the output. -/
theorem utm_points_sorted_spec (pts : List (ℚ × ℚ)) :
    (utm_points_sorted pts).Perm pts ∧
    (utm_points_sorted pts).length = pts.length ∧
    List.Pairwise
      (fun p q => angle_from_centroid (centroid pts) p ≤ angle_from_centroid (centroid pts) q)
      (utm_points_sorted pts) ∧
    (∀ p q : ℚ × ℚ, [p, q].Sublist pts →
      angle_from_centroid (centroid pts) p = angle_from_centroid (centroid pts) q →
      [p, q].Sublist (utm_points_sorted pts)) := by
  refine ⟨List.mergeSort_perm pts _, (List.mergeSort_perm pts _).length_eq, ?_, ?_⟩
  · have hs := List.sorted_mergeSort
      (angleKeyLe_trans (centroid pts)) (angleKeyLe_total (centroid pts)) pts
    exact hs.imp fun h => (angleKeyLe_iff (centroid pts) _ _).mp h
  · intro p q hsub heq
    exact List.pair_sublist_mergeSort
      (angleKeyLe_trans (centroid pts)) (angleKeyLe_total (centroid pts))
      ((angleKeyLe_iff (centroid pts) p q).mpr (le_of_eq heq)) hsub

/-- Witness for `utm_points_sorted_spec`: in `ptsW2` the points `(1,0)` and
`(2,0)` both sit at angle `0` from the centroid `(0,0)` and keep their
input order in the sorted output. -/
theorem utm_points_sorted_spec_witness :
    [((1 : ℚ), (0 : ℚ)), ((2 : ℚ), (0 : ℚ))].Sublist (utm_points_sorted ptsW2) := by
  have hcent : centroid ptsW2 = (0, 0) := by decide
  have h1 : angle_from_centroid (centroid ptsW2) (1, 0) = 0 := by
    rw [hcent, angle_from_centroid, atan2]
    refine Complex.arg_eq_zero_iff.mpr ⟨?_, ?_⟩
    · show (0 : ℝ) ≤ ((1 : ℚ) : ℝ) - ((0 : ℚ) : ℝ)
      norm_num
    · show ((0 : ℚ) : ℝ) - ((0 : ℚ) : ℝ) = 0
      norm_num
  have h2 : angle_from_centroid (centroid ptsW2) (2, 0) = 0 := by
    rw [hcent, angle_from_centroid, atan2]
    refine Complex.arg_eq_zero_iff.mpr ⟨?_, ?_⟩
    · show (0 : ℝ) ≤ ((2 : ℚ) : ℝ) - ((0 : ℚ) : ℝ)
      norm_num
    · show ((0 : ℚ) : ℝ) - ((0 : ℚ) : ℝ) = 0
      norm_num
  exact (utm_points_sorted_spec ptsW2).2.2.2 (1, 0) (2, 0)
    (List.Sublist.cons₂ _ (List.Sublist.cons₂ _ (List.nil_sublist _)))
    (h1.trans h2.symm)

end GpsMap
